import Mathlib

/-!
Verification of the parametric-geometry core of the ME-6104 project
(Bézier / Hermite / B-spline evaluators and continuity classifiers).

All numeric arrays are embedded over `ℚ` (ideal arithmetic for the values the
code computes exactly); the IEEE special values that the Bézier and Hermite
ratio tests can produce (`inf`, `-inf`, `nan`) are modelled explicitly by the
type `FVal`, with the exact comparison semantics numpy uses for them.

Array layouts follow the source: a control-point grid of shape `(3, U, V)`
becomes a function of the point index returning a `Vec3` (curves, `V = 1`),
or a function of two indices (surfaces).
-/

set_option maxHeartbeats 1000000

/-- A 3D point or vector: one rational per coordinate axis. -/
abbrev Vec3 := Fin 3 → ℚ

deriving instance DecidableEq for Except

/-- The zero vector, used as the (never observed) default when reading
the head or last element of a list already known to be nonempty. -/
def vzero : Vec3 := fun _ => 0

/-- Embeds `np.linspace(a, b, num)` at sample index `j`:
`num` evenly spaced values from `a` to `b` inclusive. -/
def linspace (a b : ℚ) (num j : ℕ) : ℚ := a + j * (b - a) / ((num - 1 : ℕ) : ℚ)

/-! ## continuity.py — the `Continuity` value type -/

/-- Continuity kind: the strings `'C'`, `'G'`, `'CG'` of `continuity.py`. -/
inductive CKind
  | C
  | G
  | CG
deriving DecidableEq

/-- The `Continuity` class of `continuity.py`: two optional fields
`type` and `order` (default-constructed values have both `None`). -/
structure Continuity where
  ctype : Option CKind
  corder : Option ℕ
deriving DecidableEq

/-- Embeds `Continuity.__bool__` (continuity.py lines 11-13): a continuity
exists iff both `type` and `order` are set. -/
def Continuity.exists_ (c : Continuity) : Bool :=
  c.ctype.isSome && c.corder.isSome

/-- Embeds `Continuity.__eq__` (continuity.py lines 15-25): both must exist;
order 0 is equal regardless of kind; otherwise same order and same kind. -/
def Continuity.eqC (a b : Continuity) : Bool :=
  if a.exists_ && b.exists_ then
    if a.corder = some 0 && b.corder = some 0 then true
    else decide (a.corder = b.corder) && decide (a.ctype = b.ctype)
  else false

/-- Python `self.order < continuity.order` for the two (guaranteed set)
optional orders used inside `__lt__`. -/
def Continuity.ordLt (x y : Option ℕ) : Bool :=
  match x, y with
  | some a, some b => decide (a < b)
  | _, _ => false

/-- Embeds `Continuity.__lt__` (continuity.py lines 27-35):
`(self.order < other.order or self.type == G and other.type == C) and self != other`,
guarded by both values existing. -/
def Continuity.ltC (a b : Continuity) : Bool :=
  if a.exists_ && b.exists_ then
    (Continuity.ordLt a.corder b.corder
        || (decide (a.ctype = some CKind.G) && decide (b.ctype = some CKind.C)))
      && !(a.eqC b)
  else false

/-! ## bezier.py — evaluation -/

/-- Embeds `bernstein_poly(u, k, n)` (bezier.py lines 10-12):
`C(n,k) * u^k * (1-u)^(n-k)` with the factorial-based combination. -/
def bernsteinPoly (u : ℚ) (k n : ℕ) : ℚ :=
  ((Nat.factorial n : ℚ) / ((Nat.factorial k : ℚ) * (Nat.factorial (n - k) : ℚ)))
    * u ^ k * (1 - u) ^ (n - k)

/-- Embeds `bezier.curve(cp, num)` (bezier.py lines 15-21) at sample index `j`:
the `j`-th node of the Bézier curve with `N` control points, sampled at `num`
uniform parameter values over `[0, 1]`. -/
def bezierCurveNode (N num : ℕ) (cp : ℕ → Vec3) (j : ℕ) : Vec3 :=
  ∑ k ∈ Finset.range ((N - 1) + 1), bernsteinPoly (linspace 0 1 num j) k (N - 1) • cp k

/-! ## IEEE special values produced by the elementwise ratio tests -/

/-- The value of one float ratio component: finite, `inf`, `-inf`, or `nan`.
Finite values carry the exact quotient. -/
inductive FVal
  | fin (q : ℚ)
  | pinf
  | ninf
  | nan
deriving DecidableEq

/-- IEEE division of two finite values as numpy performs it elementwise:
a nonzero divisor gives the finite quotient, `x/0` gives a signed infinity
for nonzero `x`, and `0/0` gives `nan`. -/
def fdiv (a b : ℚ) : FVal :=
  if b ≠ 0 then .fin (a / b)
  else if 0 < a then .pinf
  else if a < 0 then .ninf
  else .nan

/-- IEEE `==` on ratio components: `nan` equals nothing (itself included),
infinities equal only the same-signed infinity, finite values compare exactly. -/
def feq : FVal → FVal → Bool
  | .fin a, .fin b => decide (a = b)
  | .pinf, .pinf => true
  | .ninf, .ninf => true
  | _, _ => false

/-- Embeds `np.isnan` on one ratio component. -/
def fisnan : FVal → Bool
  | .nan => true
  | _ => false

/-! ## bezier.py — curve continuity -/

/-- First differences of consecutive control points, the discrete tangent
proxies built by the zip loops of bezier.py lines 40-51. -/
def diffs : List Vec3 → List Vec3
  | [] => []
  | [_] => []
  | a :: b :: rest => (b - a) :: diffs (b :: rest)

/-- The elementwise ratio `v / w` of two 3-vectors, as the list of its three
IEEE component values (bezier.py line 58 / 63). -/
def ratio3 (v w : Vec3) : List FVal :=
  [fdiv (v 0) (w 0), fdiv (v 1) (w 1), fdiv (v 2) (w 2)]

/-- Embeds the NaN filtering of bezier.py lines 59-61 / 64-66: the elementwise
ratio with its `nan` components removed (`div = div[~np.isnan(div)]`). -/
def bezierRatioFiltered (v w : Vec3) : List FVal :=
  (ratio3 v w).filter (fun x => !(fisnan x))

/-- The ways `BezierCurveContinuity` can raise instead of returning:
indexing an endpoint of an empty input, an empty first-difference list
(line 54), an empty second-difference list (line 55), or an empty
NaN-filtered ratio vector (line 68). -/
inductive BCErr
  | emptyAccess
  | diffIndex
  | diff2Index
  | ratioIndex
deriving DecidableEq

/-- Embeds `BezierCurveContinuity(cp1, cp2)` (bezier.py lines 38-71) for
curves given as lists of control points (the columns of the `(3, U, 1)`
arrays). `Except.error` marks the places where the Python raises `IndexError`;
`Except.ok none` is the Python `None`. -/
def bezierCurveContinuity (cp1 cp2 : List Vec3) : Except BCErr (Option (String × ℕ)) :=
  if cp1.isEmpty || cp2.isEmpty then .error .emptyAccess
  else
    let l1 := cp1.getLast?.getD vzero
    let h2 := cp2.head?.getD vzero
    let h1 := cp1.head?.getD vzero
    let l2 := cp2.getLast?.getD vzero
    if l1 = h2 ∨ l2 = h1 then
      let d1 := diffs cp1
      let d2 := diffs cp2
      if d1.isEmpty || d2.isEmpty then .error .diffIndex
      else
        let t1l := d1.getLast?.getD vzero
        let t2h := d2.head?.getD vzero
        let t1h := d1.head?.getD vzero
        let t2l := d2.getLast?.getD vzero
        if t1l = t2h ∨ t2l = t1h then
          let dd1 := diffs d1
          let dd2 := diffs d2
          if dd1.isEmpty || dd2.isEmpty then .error .diff2Index
          else
            .ok (some (if dd1.getLast?.getD vzero = dd2.head?.getD vzero
                ∨ dd2.getLast?.getD vzero = dd1.head?.getD vzero then ("C", 2) else ("C", 1)))
        else
          match bezierRatioFiltered t1l t2h with
          | [] => .error .ratioIndex
          | x :: rest =>
            if (x :: rest).all (fun y => feq y x) then .ok (some ("G", 1))
            else
              match bezierRatioFiltered t2l t1h with
              | [] => .error .ratioIndex
              | x2 :: rest2 =>
                .ok (some (if (x2 :: rest2).all (fun y => feq y x2) then ("G", 1) else ("CG", 0)))
    else .ok none

/-- A predicate holding exactly when a `BezierCurveContinuity` outcome is not
the empty-filtered-ratio indexing failure of bezier.py line 68. -/
def notRatioError : Except BCErr (Option (String × ℕ)) → Prop
  | .error .ratioIndex => False
  | _ => True

/-! ## bezier.py — surface boundary extraction -/

/-- Embeds the boundary-side extraction of `BezierSurfaceContinuity`
(bezier.py lines 75-87). The input array has shape `(3, U, V)`, so
`len(cp1)` is the length of the coordinate axis, always `3`, and the code
indexes rows and columns with `len(cp1) - 1 = 2` regardless of `U` and `V`:
side 0 is row `u = 0`, side 1 is column `v = 0`, side 2 is row `u = 2`, and
side 3 is column `v = 2`. -/
def bezierSurfaceSide (cp : ℕ → ℕ → ℕ → ℚ) (s : ℕ) (c : ℕ) (t : ℕ) : ℚ :=
  if s = 0 then cp c 0 t
  else if s = 1 then cp c t 0
  else if s = 2 then cp c 2 t
  else cp c t 2

/-- A concrete `(3, 4, 4)` control grid with pairwise distinct entries:
coordinate `c`, row `i`, column `j` holds `100 c + 10 i + j`. -/
def gridDemo : ℕ → ℕ → ℕ → ℚ := fun c i j => (c : ℚ) * 100 + (i : ℚ) * 10 + (j : ℚ)

/-! ## hermite.py — evaluation -/

/-- The monomial row vector `[t^3, t^2, t, 1]` of hermite.py line 15. -/
def tpow (t : ℚ) : Fin 4 → ℚ := fun a =>
  match a.val with
  | 0 => t ^ 3
  | 1 => t ^ 2
  | 2 => t
  | _ => 1

/-- The Hermite blending matrix `m` of hermite.py line 11:
`[[2,-2,1,1],[-3,3,-2,-1],[0,0,1,0],[1,0,0,0]]`. -/
def hermiteM : Fin 4 → Fin 4 → ℚ := fun a b =>
  match a.val, b.val with
  | 0, 0 => 2 | 0, 1 => -2 | 0, 2 => 1 | 0, 3 => 1
  | 1, 0 => -3 | 1, 1 => 3 | 1, 2 => -2 | 1, 3 => -1
  | 2, 0 => 0 | 2, 1 => 0 | 2, 2 => 1 | 2, 3 => 0
  | 3, 0 => 1 | 3, 1 => 0 | 3, 2 => 0 | _, _ => 0

/-- Embeds `HermiteCurve(p, num)` (hermite.py lines 9-16) at sample index `j`,
coordinate `c`: `[t^3, t^2, t, 1] . m . p[c]` at `t = linspace(0,1,num)[j]`. -/
def hermiteCurveNode (p : Fin 3 → Fin 4 → ℚ) (num j : ℕ) (c : Fin 3) : ℚ :=
  ∑ a : Fin 4, ∑ b : Fin 4, tpow (linspace 0 1 num j) a * hermiteM a b * p c b

/-! ## hermite.py — curve continuity -/

/-- The second-derivative operator matrix `M` of hermite.py line 37:
`[[0,0,0,0],[0,0,0,0],[12,-12,6,6],[-6,6,-4,-2]]`. -/
def hermiteMd : Fin 4 → Fin 4 → ℚ := fun a b =>
  match a.val, b.val with
  | 2, 0 => 12 | 2, 1 => -12 | 2, 2 => 6 | 2, 3 => 6
  | 3, 0 => -6 | 3, 1 => 6 | 3, 2 => -4 | 3, 3 => -2
  | _, _ => 0

/-- The weight row `[0, 0, 0, 1]` used for the `u = 0` end (hermite.py
lines 38, 40). -/
def w0001 : Fin 4 → ℚ := fun a => if a.val = 3 then 1 else 0

/-- The weight row `[1, 1, 1, 1]` used for the `u = 1` end (hermite.py
lines 39, 41). -/
def w1111 : Fin 4 → ℚ := fun _ => 1

/-- Embeds `np.dot(np.dot(w, M), p[:, :, 0].transpose())` (hermite.py
lines 38-41): coordinate `c` of the end second derivative. -/
def hermiteD2 (w : Fin 4 → ℚ) (p : Fin 3 → Fin 4 → ℚ) (c : Fin 3) : ℚ :=
  ∑ j : Fin 4, (∑ a : Fin 4, w a * hermiteMd a j) * p c j

/-- Embeds `HermiteCurveContinuity(p1, p2)` (hermite.py lines 35-53).
Inputs are the `(3, 4, 1)` control arrays with the trailing axis dropped:
slots 0-1 are the endpoints, slots 2-3 the tangent slots. The elementwise
ratio tests of line 50 divide floats, so their components are `FVal`s
compared with IEEE `==`. -/
def hermiteCurveContinuity (p1 p2 : Fin 3 → Fin 4 → ℚ) : Option (String × ℕ) :=
  if (∀ c, p1 c 1 = p2 c 0) ∨ (∀ c, p2 c 1 = p1 c 0) then
    some (
      if (∀ c, p1 c 3 = p2 c 2) ∨ (∀ c, p2 c 3 = p1 c 2) then
        (if (∀ c, hermiteD2 w1111 p1 c = hermiteD2 w0001 p2 c)
            ∨ (∀ c, hermiteD2 w0001 p1 c = hermiteD2 w1111 p2 c) then ("C", 2)
         else ("C", 1))
      else if (∃ c, p1 c 2 = 0) ∨ (∃ c, p1 c 3 = 0) then ("CG", 0)
      else if (∀ c, feq (fdiv (p1 c 3) (p2 c 2)) (fdiv (p1 0 3) (p2 0 2)))
          ∨ (∀ c, feq (fdiv (p2 c 3) (p1 c 2)) (fdiv (p2 0 3) (p1 0 2))) then ("G", 1)
      else ("CG", 0))
  else none

/-! ## geometry.py — Hermite tangent derivation (store model)

`HermiteCurve.calculate_tangents` and `HermiteSurface.calculate_tangents`
(geometry.py lines 390-396 and 434-444) copy the caller's array and mutate
only the copy. To state that, arrays live in a store (a list of array
buffers); a caller's array is a reference (index) into the store, `copy`
allocates a fresh buffer at the end, and the slice assignments update the
fresh buffer in place. -/

/-- A Hermite curve control array: shape `(3, 4, 1)` with the trailing axis
dropped. -/
abbrev ArrC := Fin 3 → Fin 4 → ℚ

/-- A Hermite surface control array: shape `(3, 4, 4)`. -/
abbrev ArrS := Fin 3 → Fin 4 → Fin 4 → ℚ

/-- The all-zero curve array (default for out-of-range store reads). -/
def arrCZero : ArrC := fun _ _ => 0

/-- The all-zero surface array (default for out-of-range store reads). -/
def arrSZero : ArrS := fun _ _ _ => 0

/-- Embeds `HermiteCurve.calculate_tangents` (geometry.py lines 390-396) as a
store program: read the caller's array at reference `r`, allocate a copy
(`cp = cp.copy()`), then perform
`cp[:, 2:4] = (cp[:, 2:4] - cp[:, 0:2]) * scaling` on the copy in place.
Returns the new store and the reference of the returned (fresh) array. -/
def hermiteCurveCalcTangents (sc : ℚ) (s : List ArrC) (r : ℕ) : List ArrC × ℕ :=
  let a := (s[r]?).getD arrCZero
  let r2 := s.length
  let s1 := s ++ [a]
  let a2 : ArrC := fun c j =>
    if 2 ≤ j.val then
      (a c j - a c ⟨j.val - 2, lt_of_le_of_lt (Nat.sub_le _ _) j.isLt⟩) * sc
    else a c j
  (s1.set r2 a2, r2)

/-- Embeds `HermiteSurface.calculate_tangents` (geometry.py lines 434-444) as
a store program: copy, then three sequential in-place slice assignments on the
copy (tangent quadrants `[0:2, 2:4]` and `[2:4, 0:2]`, then the twist quadrant
`[2:4, 2:4]`), each reading the state left by the previous one. -/
def hermiteSurfaceCalcTangents (sc : ℚ) (s : List ArrS) (r : ℕ) : List ArrS × ℕ :=
  let a := (s[r]?).getD arrSZero
  let r2 := s.length
  let s1 := s ++ [a]
  let b1 : ArrS := fun c i j =>
    if i.val ≤ 1 ∧ 2 ≤ j.val then
      (a c i j - a c i ⟨j.val - 2, lt_of_le_of_lt (Nat.sub_le _ _) j.isLt⟩) * sc
    else a c i j
  let s2 := s1.set r2 b1
  let b2 : ArrS := fun c i j =>
    if 2 ≤ i.val ∧ j.val ≤ 1 then
      (b1 c i j - b1 c ⟨i.val - 2, lt_of_le_of_lt (Nat.sub_le _ _) i.isLt⟩ j) * sc
    else b1 c i j
  let s3 := s2.set r2 b2
  let b3 : ArrS := fun c i j =>
    if 2 ≤ i.val ∧ 2 ≤ j.val then
      (b2 c i j
        - b2 c ⟨i.val - 2, lt_of_le_of_lt (Nat.sub_le _ _) i.isLt⟩
            ⟨j.val - 2, lt_of_le_of_lt (Nat.sub_le _ _) j.isLt⟩) * sc
    else b2 c i j
  (s3.set r2 b3, r2)

/-! ## bspline.py — evaluation -/

/-- Embeds the clamped knot vector construction of `bspline.curve`
(bspline.py lines 66-73) as a total function of the knot index `j`:
`np.pad(np.arange(T - 2*(k-1)), k-1, mode="edge")` for `N` control points is
`min (j + 1 - k) (N + 1 - k)` in truncated ℕ subtraction (zero for the first
`k-1` indices, then `0, 1, ...`, clamped at `N+1-k` for the last `k-1`). -/
def knotf (k N j : ℕ) : ℚ := ((min (j + 1 - k) (N + 1 - k) : ℕ) : ℚ)

/-- The base case (`k == 1`) of `bspline.basis` (bspline.py lines 37-42):
the indicator of `knots[i] <= u < knots[i+1]`, except that the last column of
the evaluated index array uses the closed interval
`knots[i] <= u <= knots[i+1]`. -/
def coxdbBase (kn : ℕ → ℚ) (u : ℚ) (i : ℕ) (last : Bool) : ℚ :=
  match last with
  | true => if kn i ≤ u ∧ u ≤ kn (i + 1) then 1 else 0
  | false => if kn i ≤ u ∧ u < kn (i + 1) then 1 else 0

/-- Embeds `bspline.basis(u, i, k, knots)` (bspline.py lines 10-42) at one
segment index `i` and one parameter value `u`. The recursion passes the same
index array to the first term and the shifted array `i+1` to the second, so
whether a column is the last one (`last`) is preserved by both recursive
calls; each term contributes `0` instead of dividing when its knot-span
denominator is zero. -/
def coxdb (kn : ℕ → ℚ) (u : ℚ) : ℕ → ℕ → Bool → ℚ
  | i, 0, last => coxdbBase kn u i last
  | i, 1, last => coxdbBase kn u i last
  | i, m + 2, last =>
      (if kn (i + m + 1) - kn i = 0 then 0
       else (u - kn i) * coxdb kn u i (m + 1) last / (kn (i + m + 1) - kn i)) +
      (if kn (i + m + 2) - kn (i + 1) = 0 then 0
       else (kn (i + m + 2) - u) * coxdb kn u (i + 1) (m + 1) last / (kn (i + m + 2) - kn (i + 1)))

/-- The last knot value `knots[-1]` for a curve with `N` control points and
order `k`: the padded knot vector has length `N + k`. -/
def bsplineKnotLast (k N : ℕ) : ℚ := knotf k N (N + k - 1)

/-- Embeds `bspline.curve(cp, number_u, k)` (bspline.py lines 63-80) at
sample index `j`: nodes are `basis(u, i, k, knots) @ cp`, the basis-weighted
sum of the control points, with `u = linspace(0, knots[-1], number_u)` and
the last segment column `i = N - 1` flagged as the closed-interval column. -/
def bsplineCurveNode (N k num : ℕ) (cp : ℕ → Vec3) (j : ℕ) : Vec3 :=
  ∑ i ∈ Finset.range N,
    coxdb (knotf k N) (linspace 0 (bsplineKnotLast k N) num j) i k (decide (i = N - 1)) • cp i

/-- Embeds `bspline.surface(cp, number_u, number_v, k)` (bspline.py lines
82-105) at sample indices `(j1, j2)`: the tensor product
`basis(u, i, k, knots_u) @ cp @ basis(v, j, k, knots_v)^T`. -/
def bsplineSurfaceNode (M N k nu nv : ℕ) (cp : ℕ → ℕ → Vec3) (j1 j2 : ℕ) : Vec3 :=
  ∑ i ∈ Finset.range M, ∑ j ∈ Finset.range N,
    (coxdb (knotf k M) (linspace 0 (bsplineKnotLast k M) nu j1) i k (decide (i = M - 1))
      * coxdb (knotf k N) (linspace 0 (bsplineKnotLast k N) nv j2) j k (decide (j = N - 1)))
      • cp i j

/-- The size of the unpadded knot vector `np.arange(T - padding*2)` computed
by `bspline.curve` / `bspline.surface` for `N` control points and order `k`:
`T - 2*(k-1) = N + 2 - k`, computed in ℤ because the Python expression can be
negative (in which case `arange` is empty). -/
def bsplineInnerKnotCount (N k : ℕ) : ℤ := (N : ℤ) + 2 - k

/-- `bspline.curve` with its precondition assertion (bspline.py line 72):
`none` models the `AssertionError` raised when `knots.size == 0`, i.e. when
the unpadded knot count is not positive. -/
def bsplineCurveChecked (N k num : ℕ) (cp : ℕ → Vec3) : Option (ℕ → Vec3) :=
  if 0 < bsplineInnerKnotCount N k then some (fun j => bsplineCurveNode N k num cp j)
  else none

/-- `bspline.surface` with its precondition assertion (bspline.py line 94):
`none` models the `AssertionError` raised when either direction's unpadded
knot vector is empty. -/
def bsplineSurfaceChecked (M N k nu nv : ℕ) (cp : ℕ → ℕ → Vec3) : Option (ℕ → ℕ → Vec3) :=
  if 0 < bsplineInnerKnotCount M k ∧ 0 < bsplineInnerKnotCount N k then
    some (fun j1 j2 => bsplineSurfaceNode M N k nu nv cp j1 j2)
  else none

/-! ## bspline.py — continuity classification -/

/-- Dot product of two 3-vectors. -/
def dot3 (a b : Vec3) : ℚ := a 0 * b 0 + a 1 * b 1 + a 2 * b 2

/-- Models the G1 test `np.all((t1/np.linalg.norm(t1)) == (t2/np.linalg.norm(t2)))`
(bspline.py line 122) in exact arithmetic: the two normalized vectors are
equal iff the vectors are nonzero, their dot product is positive and the
Cauchy-Schwarz inequality is an equality. A zero tangent makes the numpy
comparison involve `nan`/`inf` values and come out false, matching the
nonzero-norm conjuncts here. -/
def sameDir (a b : Vec3) : Bool :=
  decide (dot3 a a ≠ 0) && decide (dot3 b b ≠ 0) && decide (0 < dot3 a b)
    && decide ((dot3 a b) ^ 2 = dot3 a a * dot3 b b)

/-- The `(endpoint, tangent)` pairs of `continuity_of_curves` (bspline.py
lines 109-112) for one curve with `n` control points given as the index
function `f`: the start point with `np.diff(cp[:, :2, :])` and the end point
with `np.diff(cp[:, -2:, :])`. -/
def endTangentPairs (n : ℕ) (f : ℕ → Vec3) : List (Vec3 × Vec3) :=
  [(f 0, f 1 - f 0), (f (n - 1), f (n - 1) - f (n - 2))]

/-- The body of the double loop of `continuity_of_curves` (bspline.py lines
114-126) for one endpoint/tangent pair: position match, then exact tangent
equality (C1), then the normalized-direction test (G1), else mixed. -/
def classifyPairC (e1 t1 e2 t2 : Vec3) : Option (String × ℕ) :=
  if e1 = e2 then
    some (if t1 = t2 then ("C", 1) else if sameDir t1 t2 then ("G", 1) else ("CG", 0))
  else none

/-- The first non-`None` result of a sequence of loop iterations (a Python
`return` inside nested `for` loops). -/
def firstSome : List (Option α) → Option α
  | [] => none
  | none :: t => firstSome t
  | some a :: _ => some a

/-- Embeds `bspline.continuity_of_curves(cp_1, cp_2)` (bspline.py lines
107-126) for curves given as a length and an index function: the first
classification produced by the nested loops over both curves'
endpoint/tangent pairs, or `none` when the loops fall through. -/
def continuityOfCurves (n1 : ℕ) (f1 : ℕ → Vec3) (n2 : ℕ) (f2 : ℕ → Vec3) :
    Option (String × ℕ) :=
  firstSome ((endTangentPairs n1 f1).flatMap fun p1 =>
    (endTangentPairs n2 f2).map fun p2 => classifyPairC p1.1 p1.2 p2.1 p2.2)

/-- An edge of a surface control grid (or its tangent strip): a length and
the vector at each index along the edge. -/
abbrev EdgeT := ℕ × (ℕ → Vec3)

/-- `np.all(edge_1 == edge_2)` for two edges: same length and equal vectors
at every index. -/
def edgeEqB (a b : EdgeT) : Bool :=
  decide (a.1 = b.1) && decide (∀ j, j < a.1 → a.2 j = b.2 j)

/-- Dot product of two edge strips, summed over the edge (the Frobenius inner
product of the `(3, len)` arrays). -/
def edgeDot (a b : EdgeT) : ℚ := ∑ j ∈ Finset.range a.1, dot3 (a.2 j) (b.2 j)

/-- Models the G1 test of `continuity_of_surfaces` (bspline.py line 153),
`np.all((t1/np.linalg.norm(t1)) == (t2/np.linalg.norm(t2)))` on whole tangent
strips, in exact arithmetic, as in `sameDir`. -/
def sameDirEdge (a b : EdgeT) : Bool :=
  decide (a.1 = b.1) && decide (edgeDot a a ≠ 0) && decide (edgeDot b b ≠ 0)
    && decide (0 < edgeDot a b) && decide ((edgeDot a b) ^ 2 = edgeDot a a * edgeDot b b)

/-- The four `(edge, tangent)` pairs of `continuity_of_surfaces` (bspline.py
lines 130-143) for a grid with `m` rows and `n` columns given as the index
function `f`, in source order: `cp[:, 0, :]`, `cp[:, -1, :]`, `cp[:, :, 0]`,
`cp[:, :, -1]`, each with its `np.diff` tangent strip. -/
def edgeTangentPairs (m n : ℕ) (f : ℕ → ℕ → Vec3) : List (EdgeT × EdgeT) :=
  [ ((n, fun j => f 0 j), (n, fun j => f 1 j - f 0 j)),
    ((n, fun j => f (m - 1) j), (n, fun j => f (m - 1) j - f (m - 2) j)),
    ((m, fun i => f i 0), (m, fun i => f i 1 - f i 0)),
    ((m, fun i => f i (n - 1)), (m, fun i => f i (n - 1) - f i (n - 2))) ]

/-- The body of the double loop of `continuity_of_surfaces` (bspline.py lines
145-157) for one edge/tangent pair. -/
def classifyPairS (e1 t1 e2 t2 : EdgeT) : Option (String × ℕ) :=
  if edgeEqB e1 e2 then
    some (if edgeEqB t1 t2 then ("C", 1) else if sameDirEdge t1 t2 then ("G", 1) else ("CG", 0))
  else none

/-- Embeds `bspline.continuity_of_surfaces(cp_1, cp_2)` (bspline.py lines
128-157) for grids given as two lengths and an index function. -/
def continuityOfSurfaces (m1 n1 : ℕ) (f1 : ℕ → ℕ → Vec3) (m2 n2 : ℕ) (f2 : ℕ → ℕ → Vec3) :
    Option (String × ℕ) :=
  firstSome ((edgeTangentPairs m1 n1 f1).flatMap fun p1 =>
    (edgeTangentPairs m2 n2 f2).map fun p2 => classifyPairS p1.1 p1.2 p2.1 p2.2)

/-- The only classifications the B-spline continuity functions can produce
besides `none`. -/
def bsplineClassifierRange : List (Option (String × ℕ)) :=
  [some ("C", 1), some ("G", 1), some ("CG", 0), none]

/-- The first Hermite input of the C6 counterexample: every coordinate row is
`[0, 1, 1, 2]` (no zero tangent components in slots 2-3). -/
def hermP1ex : Fin 3 → Fin 4 → ℚ := fun _ => ![0, 1, 1, 2]

/-- The second Hermite input of the C6 counterexample: coordinate 0 has rows
`[1, 9, 0, 3]` (tangent slot 2 contains an exact zero), the others
`[1, 9, 1, 3]`. -/
def hermP2ex : Fin 3 → Fin 4 → ℚ := fun c =>
  match c.val with
  | 0 => ![1, 9, 0, 3]
  | _ => ![1, 9, 1, 3]

/-- First input for the C6 witness: rows `[0, 1, 0, 1]`, with a zero in
tangent slot 2. -/
def hermP1w : Fin 3 → Fin 4 → ℚ := fun _ => ![0, 1, 0, 1]

/-- Second input for the C6 witness: rows `[1, 9, 5, 7]`. -/
def hermP2w : Fin 3 → Fin 4 → ℚ := fun _ => ![1, 9, 5, 7]

/-- A concrete two-point control polygon for the C3 witness. -/
def cpW : ℕ → Vec3 := fun i => ![(i : ℚ), 7, 3]

/-- A concrete Hermite control array for the C3 witness. -/
def hermW : Fin 3 → Fin 4 → ℚ := fun _ => ![2, 4, 6, 8]

/-! ## Helper lemmas -/

theorem fisnan_fdiv (a b : ℚ) : fisnan (fdiv a b) = decide (a = 0 ∧ b = 0) := by
  unfold fdiv
  split_ifs with hb hp hn
  · simp [fisnan, hb]
  · simp [fisnan, ne_of_gt hp]
  · simp [fisnan, ne_of_lt hn]
  · push_neg at hb
    have ha : a = 0 := le_antisymm (not_lt.mp hp) (not_lt.mp hn)
    simp [fisnan, ha, hb]

theorem filtered_ne_nil (v w : Vec3) (h : v ≠ w) : bezierRatioFiltered v w ≠ [] := by
  have hc : ∃ c : Fin 3, v c ≠ w c := by
    by_contra hall
    push_neg at hall
    exact h (funext hall)
  obtain ⟨c, hc⟩ := hc
  have hnz : ¬ (v c = 0 ∧ w c = 0) := by
    rintro ⟨h1, h2⟩
    exact hc (h1.trans h2.symm)
  have hmem : fdiv (v c) (w c) ∈ bezierRatioFiltered v w := by
    rw [bezierRatioFiltered, List.mem_filter]
    constructor
    · fin_cases c <;> simp [ratio3]
    · rw [fisnan_fdiv]
      simp [hnz]
  intro hnil
  rw [hnil] at hmem
  exact List.not_mem_nil _ hmem

theorem bcc_no_ratio_error (cp1 cp2 : List Vec3) : notRatioError (bezierCurveContinuity cp1 cp2) := by
  simp only [bezierCurveContinuity]
  split
  · trivial
  · split
    · split
      · trivial
      · split
        · split
          · trivial
          · trivial
        · rename_i hne
          push_neg at hne
          split
          · rename_i heq
            exact absurd heq (filtered_ne_nil _ _ hne.1)
          · split
            · trivial
            · split
              · rename_i heq
                exact absurd heq (filtered_ne_nil _ _ hne.2)
              · trivial
    · trivial

/-! ## Claim theorems -/

/-- C1: the claim says that for existing continuities with `a.order > b.order`,
`a < b` never holds. The code violates this: the `G`-versus-`C` kind tiebreak
in `__lt__` is applied without requiring the orders to be equal, so
`Continuity('G', 2) < Continuity('C', 1)` returns `True` (and so does the
reverse comparison, making the two values mutually less-than). -/
theorem C1_lt_order_violation :
    Continuity.ltC ⟨some CKind.G, some 2⟩ ⟨some CKind.C, some 1⟩ = true ∧
    Continuity.ltC ⟨some CKind.C, some 1⟩ ⟨some CKind.G, some 2⟩ = true := by
  constructor <;> rfl

/-- C7 (counterexample): the claim says a default-constructed `Continuity()`
is strictly less than every existing continuity; but `__lt__` returns `False`
whenever either side does not exist, so `Continuity() < Continuity('C', 1)`
is `False`. -/
theorem C7_default_lt_counterexample :
    Continuity.ltC ⟨none, none⟩ ⟨some CKind.C, some 1⟩ = false := by
  rfl

/-- C7 (amended): a default-constructed (non-existent) `Continuity` is
incomparable rather than lowest: for every value `c`, both
`Continuity() < c` and `c < Continuity()` are `False`. -/
theorem C7_default_incomparable :
    ∀ c : Continuity,
      Continuity.ltC ⟨none, none⟩ c = false ∧ Continuity.ltC c ⟨none, none⟩ = false := by
  intro c
  constructor <;> simp [Continuity.ltC, Continuity.exists_]

/-- C4: the claim says `BezierSurfaceContinuity` compares the four boundary
curves (u-min, v-min, u-max, v-max) of each grid. The code indexes the
"max" sides with `len(cp1) - 1`, where `len(cp1)` is the length of the
coordinate axis (always 3), so on a `(3, 4, 4)` grid the side taken as
"u-max" is interior row 2, not boundary row 3, and likewise for "v-max". -/
theorem C4_surface_side_index :
    bezierSurfaceSide gridDemo 2 0 0 = gridDemo 0 2 0 ∧ gridDemo 0 2 0 ≠ gridDemo 0 3 0 ∧
    bezierSurfaceSide gridDemo 3 0 0 = gridDemo 0 0 2 ∧ gridDemo 0 0 2 ≠ gridDemo 0 0 3 := by
  refine ⟨rfl, by norm_num [gridDemo], rfl, by norm_num [gridDemo]⟩

/-- C2: the claim says B-spline evaluation fails its assertion if and only if
the order `k` exceeds the number of control points. The assertion actually
tests only that the unpadded knot vector `np.arange(N + 2 - k)` is nonempty,
i.e. it fails only for `k ≥ N + 2`: with 3 control points, order `k = 4`
passes the assertion and silently returns a node grid (for both `curve` and
`surface`), while `k = 5` is the first order that trips it. -/
theorem C2_assert_off_by_one :
    (bsplineCurveChecked 3 4 5 (fun _ => vzero)).isSome = true ∧
    bsplineCurveChecked 3 5 5 (fun _ => vzero) = none ∧
    (bsplineSurfaceChecked 3 3 4 5 5 (fun _ _ => vzero)).isSome = true := by
  refine ⟨?_, ?_, ?_⟩ <;>
    norm_num [bsplineCurveChecked, bsplineSurfaceChecked, bsplineInnerKnotCount]

/-- C5 (counterexample): the claim says every ratio component with a zero
divisor is discarded and no `inf` affects the result. For the curves
`[(-1,-2,0), (0,0,0)]` and `[(0,0,0), (0,0,0), (5,5,5)]` the join tangents
are `(1,2,0)` and `(0,0,0)`: only the `0/0` component is discarded, the two
`x/0 = inf` components survive the NaN filter, compare equal to each other,
and make the function classify the join as G1. -/
theorem C5_zero_divisor_counterexample :
    bezierCurveContinuity [![-1, -2, 0], ![0, 0, 0]] [![0, 0, 0], ![0, 0, 0], ![5, 5, 5]]
      = .ok (some ("G", 1)) ∧
    bezierRatioFiltered ![1, 2, 0] ![0, 0, 0] = [.pinf, .pinf] := by
  constructor
  · have e1 : diffs [![-1, -2, 0], ![0, 0, 0]] = [![1, 2, 0]] := by
      have h : (![0, 0, 0] - ![-1, -2, 0] : Vec3) = ![1, 2, 0] := by
        funext c; fin_cases c <;> norm_num
      simp [diffs, h]
    have e2 : diffs [![0, 0, 0], ![0, 0, 0], ![5, 5, 5]] = [0, ![5, 5, 5]] := by
      have h2 : (![5, 5, 5] - ![0, 0, 0] : Vec3) = ![5, 5, 5] := by
        funext c; fin_cases c <;> norm_num
      simp [diffs, h2]
    have e3 : ¬ ((![1, 2, 0] : Vec3) = 0 ∨ (![5, 5, 5] : Vec3) = ![1, 2, 0]) := by
      rintro (h | h) <;> exact absurd (congrFun h 0) (by norm_num)
    have e4 : bezierRatioFiltered ![1, 2, 0] 0 = [.pinf, .pinf] := by
      norm_num [bezierRatioFiltered, ratio3, fdiv, fisnan, List.filter]
    norm_num [bezierCurveContinuity, e1, e2, e3, e4, List.getLast?, List.head?, feq]
    intro h
    exact absurd (congrFun h 0) (by norm_num)
  · norm_num [bezierRatioFiltered, ratio3, fdiv, fisnan, List.filter]

/-- C5 (amended): the NaN filter of the G1 ratio test discards exactly the
`0/0` components — those whose reference (divisor) component *and* numerator
component are both zero. A zero divisor with a nonzero numerator yields a
signed infinity that is retained in (and can decide) the constant-ratio
equality check. -/
theorem C5_nan_only_filter :
    ∀ v w : Vec3,
      bezierRatioFiltered v w =
        (([0, 1, 2] : List (Fin 3)).filterMap fun c =>
          if v c = 0 ∧ w c = 0 then none else some (fdiv (v c) (w c))) := by
  intro v w
  simp only [bezierRatioFiltered, ratio3, List.filter_cons, List.filter_nil,
    List.filterMap_cons, List.filterMap_nil, fisnan_fdiv]
  by_cases h0 : v 0 = 0 ∧ w 0 = 0 <;> by_cases h1 : v 1 = 0 ∧ w 1 = 0 <;>
    by_cases h2 : v 2 = 0 ∧ w 2 = 0 <;> simp [h0, h1, h2]

/-- C6 (counterexample): the claim says a zero tangent component in *either*
input forces the mixed `('CG', 0)` classification. The guard in the code only
inspects `p1`: here `p2` has a zero tangent component (slot 2, coordinate 0),
the guard does not fire, the ratio test divides by that zero (producing an
`inf` component), and the function returns `('G', 1)`. -/
theorem C6_second_curve_zero_counterexample :
    hermiteCurveContinuity hermP1ex hermP2ex = some ("G", 1) ∧ hermP2ex 0 2 = 0 := by
  constructor
  · have hpos : (∀ c, hermP1ex c 1 = hermP2ex c 0) := by
      intro c; fin_cases c <;> norm_num [hermP1ex, hermP2ex]
    have hne : ¬ ((∀ c, hermP1ex c 3 = hermP2ex c 2) ∨ (∀ c, hermP2ex c 3 = hermP1ex c 2)) := by
      rintro (h | h)
      · exact absurd (h 1) (by norm_num [hermP1ex, hermP2ex])
      · exact absurd (h 0) (by norm_num [hermP1ex, hermP2ex])
    have hz : ¬ ((∃ c, hermP1ex c 2 = 0) ∨ (∃ c, hermP1ex c 3 = 0)) := by
      rintro (⟨c, h⟩ | ⟨c, h⟩) <;> revert h <;> norm_num [hermP1ex]
    have hg : (∀ c, feq (fdiv (hermP1ex c 3) (hermP2ex c 2)) (fdiv (hermP1ex 0 3) (hermP2ex 0 2)))
        ∨ (∀ c, feq (fdiv (hermP2ex c 3) (hermP1ex c 2)) (fdiv (hermP2ex 0 3) (hermP1ex 0 2))) :=
      Or.inr (by intro c; fin_cases c <;> norm_num [hermP1ex, hermP2ex, fdiv, feq])
    unfold hermiteCurveContinuity
    rw [if_pos (Or.inl hpos), if_neg hne, if_neg hz, if_pos hg]
  · norm_num [hermP2ex]

/-- C6 (amended): the conservative zero guard applies only to the first input
array: when the curves match positionally, the tangent slots are not exactly
equal, and any component of `p1`'s slots 2-3 is exactly zero, the function
returns `('CG', 0)` without running the ratio test. -/
theorem C6_first_curve_zero_guard (p1 p2 : Fin 3 → Fin 4 → ℚ)
    (hpos : (∀ c, p1 c 1 = p2 c 0) ∨ (∀ c, p2 c 1 = p1 c 0))
    (hne : ¬ ((∀ c, p1 c 3 = p2 c 2) ∨ (∀ c, p2 c 3 = p1 c 2)))
    (hz : (∃ c, p1 c 2 = 0) ∨ (∃ c, p1 c 3 = 0)) :
    hermiteCurveContinuity p1 p2 = some ("CG", 0) := by
  unfold hermiteCurveContinuity
  rw [if_pos hpos, if_neg hne, if_pos hz]

/-- Witness for C6 at a concrete input with a zero tangent component in the
first curve. -/
theorem C6_first_curve_zero_guard_witness :
    hermiteCurveContinuity hermP1w hermP2w = some ("CG", 0) ∧ (∃ c, hermP1w c 2 = 0) :=
  ⟨C6_first_curve_zero_guard hermP1w hermP2w (Or.inl (by decide)) (by decide) (by decide),
    by decide⟩

/-- C10 (counterexample): the claim says some well-formed input makes the
NaN-filtered ratio vector empty so that indexing its first element raises.
No input at all can do that: whenever the ratio branch is reached the
tangent-equality test has failed, so each filtered ratio vector keeps at
least one non-NaN component and the indexing succeeds. -/
theorem C10_no_ratio_index_error :
    ¬ ∃ cp1 cp2 : List Vec3, bezierCurveContinuity cp1 cp2 = .error .ratioIndex := by
  rintro ⟨cp1, cp2, h⟩
  have hn := bcc_no_ratio_error cp1 cp2
  rw [h] at hn
  exact hn

/-- C10 (amended): `BezierCurveContinuity` never fails by indexing an empty
NaN-filtered ratio vector; its actual non-totality is in the C2 test, which
indexes an empty second-difference list whenever a curve with exactly two
control points passes the tangent-equality test, as the concrete pair
`[(0,0,0), (1,0,0)]`, `[(1,0,0), (2,0,0)]` shows. -/
theorem C10_totality_amended :
    (∀ cp1 cp2 : List Vec3, notRatioError (bezierCurveContinuity cp1 cp2)) ∧
    bezierCurveContinuity [![0, 0, 0], ![1, 0, 0]] [![1, 0, 0], ![2, 0, 0]]
      = .error .diff2Index := by
  refine ⟨fun cp1 cp2 => bcc_no_ratio_error cp1 cp2, ?_⟩
  have e1 : diffs [![0, 0, 0], ![1, 0, 0]] = [![1, 0, 0]] := by
    have h : (![1, 0, 0] - ![0, 0, 0] : Vec3) = ![1, 0, 0] := by
      funext c; fin_cases c <;> norm_num
    simp [diffs, h]
  have e2 : diffs [![1, 0, 0], ![2, 0, 0]] = [![1, 0, 0]] := by
    have h : (![2, 0, 0] - ![1, 0, 0] : Vec3) = ![1, 0, 0] := by
      funext c; fin_cases c <;> norm_num
    simp [diffs, h]
  norm_num [bezierCurveContinuity, e1, e2, List.getLast?, List.head?, diffs]

theorem firstSome_mem_range (l : List (Option (String × ℕ)))
    (h : ∀ o ∈ l, o ∈ bsplineClassifierRange) : firstSome l ∈ bsplineClassifierRange := by
  induction l with
  | nil => simp [firstSome, bsplineClassifierRange]
  | cons hd tl ih =>
    cases hd with
    | none =>
      show firstSome tl ∈ bsplineClassifierRange
      exact ih fun o ho => h o (List.mem_cons_of_mem _ ho)
    | some a =>
      show some a ∈ bsplineClassifierRange
      exact h _ (List.mem_cons_self _ _)

theorem classifyPairC_mem (e1 t1 e2 t2 : Vec3) :
    classifyPairC e1 t1 e2 t2 ∈ bsplineClassifierRange := by
  unfold classifyPairC bsplineClassifierRange
  split_ifs <;> simp

theorem classifyPairS_mem (e1 t1 e2 t2 : EdgeT) :
    classifyPairS e1 t1 e2 t2 ∈ bsplineClassifierRange := by
  unfold classifyPairS bsplineClassifierRange
  split_ifs <;> simp

/-- C8: for every pair of input control grids, the B-spline continuity
classifiers `continuity_of_curves` and `continuity_of_surfaces` return only
`('C', 1)`, `('G', 1)`, `('CG', 0)`, or no continuity; an order-2
classification is never produced. -/
theorem C8_bspline_classifier_range :
    (∀ (n1 : ℕ) (f1 : ℕ → Vec3) (n2 : ℕ) (f2 : ℕ → Vec3),
      continuityOfCurves n1 f1 n2 f2 ∈ bsplineClassifierRange) ∧
    (∀ (m1 n1 : ℕ) (f1 : ℕ → ℕ → Vec3) (m2 n2 : ℕ) (f2 : ℕ → ℕ → Vec3),
      continuityOfSurfaces m1 n1 f1 m2 n2 f2 ∈ bsplineClassifierRange) := by
  constructor
  · intro n1 f1 n2 f2
    apply firstSome_mem_range
    intro o ho
    simp only [List.mem_flatMap, List.mem_map] at ho
    obtain ⟨p1, -, p2, -, rfl⟩ := ho
    exact classifyPairC_mem _ _ _ _
  · intro m1 n1 f1 m2 n2 f2
    apply firstSome_mem_range
    intro o ho
    simp only [List.mem_flatMap, List.mem_map] at ho
    obtain ⟨p1, -, p2, -, rfl⟩ := ho
    exact classifyPairS_mem _ _ _ _

/-- C9: `HermiteCurve.calculate_tangents` and
`HermiteSurface.calculate_tangents` copy before mutating: the returned array
is a fresh reference (allocated at the end of the store, beyond every
existing reference) and every existing array of the store — in particular
the caller's array `r` — is left unchanged, so Hermite evaluation and
continuity calls never mutate their input control grids. -/
theorem C9_calculate_tangents_pure (sc : ℚ) (s : List ArrC) (t : List ArrS) (r i : ℕ)
    (hi : i < s.length) (hj : i < t.length) :
    ((hermiteCurveCalcTangents sc s r).1[i]? = s[i]? ∧
      s.length ≤ (hermiteCurveCalcTangents sc s r).2) ∧
    ((hermiteSurfaceCalcTangents sc t r).1[i]? = t[i]? ∧
      t.length ≤ (hermiteSurfaceCalcTangents sc t r).2) := by
  refine ⟨⟨?_, ?_⟩, ⟨?_, ?_⟩⟩
  · simp only [hermiteCurveCalcTangents]
    rw [List.getElem?_set_ne (by omega), List.getElem?_append, if_pos hi]
  · simp only [hermiteCurveCalcTangents]
    exact le_refl _
  · simp only [hermiteSurfaceCalcTangents]
    rw [List.getElem?_set_ne (by omega), List.getElem?_set_ne (by omega),
      List.getElem?_set_ne (by omega), List.getElem?_append, if_pos hj]
  · simp only [hermiteSurfaceCalcTangents]
    exact le_refl _

/-- Witness for C9 on a one-array store. -/
theorem C9_calculate_tangents_pure_witness :
    (0 < ([arrCZero] : List ArrC).length ∧ 0 < ([arrSZero] : List ArrS).length) ∧
    ((hermiteCurveCalcTangents 1 [arrCZero] 0).1[0]? = ([arrCZero] : List ArrC)[0]? ∧
      ([arrCZero] : List ArrC).length ≤ (hermiteCurveCalcTangents 1 [arrCZero] 0).2) ∧
    ((hermiteSurfaceCalcTangents 1 [arrSZero] 0).1[0]? = ([arrSZero] : List ArrS)[0]? ∧
      ([arrSZero] : List ArrS).length ≤ (hermiteSurfaceCalcTangents 1 [arrSZero] 0).2) :=
  ⟨⟨by norm_num, by norm_num⟩,
    (C9_calculate_tangents_pure 1 [arrCZero] [arrSZero] 0 0 (by norm_num) (by norm_num)).1,
    (C9_calculate_tangents_pure 1 [arrCZero] [arrSZero] 0 0 (by norm_num) (by norm_num)).2⟩

theorem linspace_zero (a b : ℚ) (num : ℕ) : linspace a b num 0 = a := by
  simp [linspace]

theorem linspace_last (a b : ℚ) (num : ℕ) (h : 2 ≤ num) : linspace a b num (num - 1) = b := by
  have hne : ((num - 1 : ℕ) : ℚ) ≠ 0 := by
    have h1 : (0:ℕ) < num - 1 := by omega
    exact_mod_cast Nat.pos_iff_ne_zero.mp h1
  rw [linspace, mul_comm ((num - 1 : ℕ) : ℚ) (b - a), mul_div_assoc, div_self hne, mul_one]
  ring

theorem bernsteinPoly_zero (k n : ℕ) : bernsteinPoly 0 k n = if k = 0 then 1 else 0 := by
  unfold bernsteinPoly
  by_cases hk : k = 0
  · subst hk
    simp [Nat.factorial]
    exact div_self (by exact_mod_cast n.factorial_ne_zero)
  · simp [hk, zero_pow hk]

theorem bernsteinPoly_one (k n : ℕ) (hkn : k ≤ n) : bernsteinPoly 1 k n = if k = n then 1 else 0 := by
  unfold bernsteinPoly
  by_cases hk : k = n
  · subst hk
    simp [Nat.sub_self, Nat.factorial]
    exact div_self (by exact_mod_cast k.factorial_ne_zero)
  · have hnz : n - k ≠ 0 := by omega
    simp [hk, sub_self, zero_pow hnz]

theorem bezier_node_first (N num : ℕ) (cp : ℕ → Vec3) : bezierCurveNode N num cp 0 = cp 0 := by
  unfold bezierCurveNode
  rw [linspace_zero]
  rw [Finset.sum_eq_single_of_mem 0 (Finset.mem_range.mpr (by omega))]
  · rw [bernsteinPoly_zero, if_pos rfl, one_smul]
  · intro b _ hbne
    rw [bernsteinPoly_zero, if_neg hbne, zero_smul]

theorem bezier_node_last (N num : ℕ) (cp : ℕ → Vec3) (hnum : 2 ≤ num) :
    bezierCurveNode N num cp (num - 1) = cp (N - 1) := by
  unfold bezierCurveNode
  rw [linspace_last 0 1 num hnum]
  rw [Finset.sum_eq_single_of_mem (N - 1) (Finset.mem_range.mpr (by omega))]
  · rw [bernsteinPoly_one _ _ (le_refl _), if_pos rfl, one_smul]
  · intro b hb hbne
    have hble : b ≤ N - 1 := by
      have := Finset.mem_range.mp hb
      omega
    rw [bernsteinPoly_one _ _ hble, if_neg hbne, zero_smul]

theorem hermite_node_first (p : Fin 3 → Fin 4 → ℚ) (num : ℕ) (c : Fin 3) :
    hermiteCurveNode p num 0 c = p c 0 := by
  unfold hermiteCurveNode
  rw [linspace_zero]
  norm_num [Fin.sum_univ_four, tpow, hermiteM]

theorem hermite_node_last (p : Fin 3 → Fin 4 → ℚ) (num : ℕ) (c : Fin 3) (hnum : 2 ≤ num) :
    hermiteCurveNode p num (num - 1) c = p c 1 := by
  unfold hermiteCurveNode
  rw [linspace_last 0 1 num hnum]
  norm_num [Fin.sum_univ_four, tpow, hermiteM]
  ring

theorem knotf_of_lt (k N j : ℕ) (h : j + 1 ≤ k) : knotf k N j = 0 := by
  unfold knotf
  have h0 : j + 1 - k = 0 := by omega
  rw [h0]
  simp

theorem knotf_of_between (k N j : ℕ) (h1 : k ≤ j + 1) (h2 : j ≤ N) :
    knotf k N j = ((j + 1 - k : ℕ) : ℚ) := by
  unfold knotf
  have hmin : min (j + 1 - k) (N + 1 - k) = j + 1 - k := by omega
  rw [hmin]

theorem knotf_of_ge (k N j : ℕ) (h : N ≤ j) : knotf k N j = ((N + 1 - k : ℕ) : ℚ) := by
  unfold knotf
  have hmin : min (j + 1 - k) (N + 1 - k) = N + 1 - k := by omega
  rw [hmin]

theorem knotf_nonneg (k N j : ℕ) : 0 ≤ knotf k N j := Nat.cast_nonneg _

theorem knotf_le_last (k N j : ℕ) : knotf k N j ≤ ((N + 1 - k : ℕ) : ℚ) := by
  unfold knotf
  exact_mod_cast Nat.min_le_right _ _

theorem knotf_eq_zero_iff (k N j : ℕ) (hkN : k ≤ N) : knotf k N j = 0 ↔ j + 1 ≤ k := by
  unfold knotf
  rw [Nat.cast_eq_zero, Nat.min_eq_zero_iff]
  omega

theorem knotf_k (k N : ℕ) (hkN : k ≤ N) : knotf k N k = 1 := by
  rw [knotf_of_between k N k (by omega) hkN]
  have h1 : k + 1 - k = 1 := by omega
  rw [h1]
  norm_num

theorem coxdb_L_false (k N : ℕ) :
    ∀ m i, coxdb (knotf k N) ((N + 1 - k : ℕ) : ℚ) i m false = 0 := by
  intro m
  induction m using Nat.twoStepInduction with
  | zero =>
    intro i
    simp only [coxdb, coxdbBase]
    split_ifs with hc
    · exact absurd hc.2 (not_lt.mpr (knotf_le_last k N (i + 1)))
    · rfl
  | one =>
    intro i
    simp only [coxdb, coxdbBase]
    split_ifs with hc
    · exact absurd hc.2 (not_lt.mpr (knotf_le_last k N (i + 1)))
    · rfl
  | more m ih ih1 =>
    intro i
    rw [coxdb, ih1 i, ih1 (i + 1)]
    simp

theorem coxdb_L_last (k N : ℕ) (hk1 : 1 ≤ k) (hkN : k ≤ N) :
    ∀ m, coxdb (knotf k N) ((N + 1 - k : ℕ) : ℚ) (N - 1) (m + 1) true = 1 := by
  have hN1 : N - 1 + 1 = N := by omega
  have hknN1 : knotf k N (N - 1) = ((N - k : ℕ) : ℚ) := by
    rw [knotf_of_between k N (N - 1) (by omega) (by omega), hN1]
  have hdenom : ((N + 1 - k : ℕ) : ℚ) - ((N - k : ℕ) : ℚ) = 1 := by
    rw [Nat.cast_sub (by omega), Nat.cast_sub (by omega)]
    push_cast
    ring
  intro m
  induction m with
  | zero =>
    simp only [coxdb, coxdbBase]
    have h2 : ((N + 1 - k : ℕ) : ℚ) ≤ knotf k N (N - 1 + 1) :=
      le_of_eq (by rw [hN1, knotf_of_ge k N N (le_refl N)])
    split_ifs with hc
    · rfl
    · exact absurd ⟨knotf_le_last k N (N - 1), h2⟩ hc
  | succ m ih =>
    rw [coxdb]
    have hidx1 : knotf k N (N - 1 + m + 1) = ((N + 1 - k : ℕ) : ℚ) :=
      knotf_of_ge k N _ (by omega)
    have hidx2 : knotf k N (N - 1 + m + 2) = ((N + 1 - k : ℕ) : ℚ) :=
      knotf_of_ge k N _ (by omega)
    rw [hidx1, hidx2, hknN1, hdenom, sub_self, ih]
    norm_num

theorem coxdb_zero_false (k N : ℕ) (hkN : k ≤ N) :
    ∀ m, m + 1 ≤ k → ∀ i,
      coxdb (knotf k N) 0 i (m + 1) false = if i + (m + 1) = k then 1 else 0 := by
  intro m
  induction m with
  | zero =>
    intro hm i
    simp only [coxdb, coxdbBase]
    have hnn := knotf_nonneg k N i
    have hnn1 := knotf_nonneg k N (i + 1)
    by_cases hik : i + 1 = k
    · have hknI : knotf k N i = 0 := knotf_of_lt k N i (by omega)
      have hknI1 : knotf k N (i + 1) ≠ 0 := by
        rw [Ne, knotf_eq_zero_iff k N (i + 1) hkN]
        omega
      rw [if_pos ⟨hknI.le, hnn1.lt_of_ne (Ne.symm hknI1)⟩, if_pos (by omega : i + (0 + 1) = k)]
    · rw [if_neg (fun hc => hik (by
          have e1 : knotf k N i = 0 := le_antisymm hc.1 hnn
          have e2 : i + 1 ≤ k := (knotf_eq_zero_iff k N i hkN).mp e1
          have e3 : ¬ i + 2 ≤ k := fun hcon =>
            (ne_of_gt hc.2) ((knotf_eq_zero_iff k N (i + 1) hkN).mpr hcon)
          omega)),
        if_neg (by omega : ¬ i + (0 + 1) = k)]
  | succ m ih =>
    intro hm i
    have ih1 := ih (by omega)
    have hterm1 : (if knotf k N (i + m + 1) - knotf k N i = 0 then (0:ℚ)
        else (0 - knotf k N i) * coxdb (knotf k N) 0 i (m + 1) false
          / (knotf k N (i + m + 1) - knotf k N i)) = 0 := by
      by_cases hki : i + 1 ≤ k
      · have h0 : knotf k N i = 0 := knotf_of_lt k N i hki
        rw [h0]
        split_ifs <;> simp
      · have hge : coxdb (knotf k N) 0 i (m + 1) false = 0 := by
          rw [ih1 i, if_neg (by omega)]
        rw [hge]
        split_ifs <;> simp
    have hterm2 : (if knotf k N (i + m + 2) - knotf k N (i + 1) = 0 then (0:ℚ)
        else (knotf k N (i + m + 2) - 0) * coxdb (knotf k N) 0 (i + 1) (m + 1) false
          / (knotf k N (i + m + 2) - knotf k N (i + 1)))
        = if i + (m + 2) = k then 1 else 0 := by
      rw [ih1 (i + 1)]
      by_cases hcase : i + 1 + (m + 1) = k
      · have hk2 : knotf k N (i + m + 2) = 1 := by
          rw [show i + m + 2 = k from by omega]
          exact knotf_k k N hkN
        have hk3 : knotf k N (i + 1) = 0 := knotf_of_lt k N (i + 1) (by omega)
        rw [hk2, hk3, if_pos hcase, if_pos (by omega : i + (m + 2) = k)]
        norm_num
      · rw [if_neg hcase, if_neg (by omega : ¬ i + (m + 2) = k)]
        split_ifs <;> simp
    rw [show m + 1 + 1 = m + 2 from rfl, coxdb, hterm1, hterm2, zero_add]

theorem coxdb_zero_true_ge (k N : ℕ) (hkN : k ≤ N) :
    ∀ m i, k ≤ i → coxdb (knotf k N) 0 i (m + 1) true = 0 := by
  intro m
  induction m with
  | zero =>
    intro i hik
    simp only [coxdb, coxdbBase]
    split_ifs with hc
    · exfalso
      have e1 : knotf k N i = 0 := le_antisymm hc.1 (knotf_nonneg k N i)
      have e2 : i + 1 ≤ k := (knotf_eq_zero_iff k N i hkN).mp e1
      omega
    · rfl
  | succ m ih =>
    intro i hik
    rw [show m + 1 + 1 = m + 2 from rfl, coxdb, ih i hik, ih (i + 1) (by omega)]
    simp

theorem coxdb_zero_true_top (k N : ℕ) (hk1 : 1 ≤ k) (hkN : k ≤ N) :
    ∀ m, coxdb (knotf k N) 0 (k - 1) (m + 2) true = 0 := by
  intro m
  rw [coxdb]
  have h0 : knotf k N (k - 1) = 0 := knotf_of_lt k N (k - 1) (by omega)
  have hrec : coxdb (knotf k N) 0 (k - 1 + 1) (m + 1) true = 0 :=
    coxdb_zero_true_ge k N hkN m (k - 1 + 1) (by omega)
  rw [h0, hrec]
  simp

theorem bspline_node_first (N k num : ℕ) (hk1 : 1 ≤ k) (hkN : k ≤ N) (hN : 2 ≤ N)
    (cp : ℕ → Vec3) : bsplineCurveNode N k num cp 0 = cp 0 := by
  unfold bsplineCurveNode
  rw [linspace_zero]
  rw [Finset.sum_eq_single_of_mem 0 (Finset.mem_range.mpr (by omega))]
  · have hflag : decide (0 = N - 1) = false := decide_eq_false (by omega)
    rw [hflag]
    have hval := coxdb_zero_false k N hkN (k - 1) (by omega) 0
    rw [show k - 1 + 1 = k from by omega] at hval
    rw [hval, if_pos (by omega : 0 + k = k), one_smul]
  · intro b hb hbne
    by_cases hblast : b = N - 1
    · subst hblast
      have hflag : decide (N - 1 = N - 1) = true := decide_eq_true rfl
      rw [hflag]
      rcases lt_or_eq_of_le hkN with hlt | heq
    
      · have hval := coxdb_zero_true_ge k N hkN (k - 1) (N - 1) (by omega)
        rw [show k - 1 + 1 = k from by omega] at hval
        rw [hval, zero_smul]
      · have hval := coxdb_zero_true_top k N hk1 hkN (k - 2)
        rw [show k - 2 + 2 = k from by omega] at hval
        rw [show N - 1 = k - 1 from by omega, hval, zero_smul]
  
    · have hflag : decide (b = N - 1) = false := decide_eq_false hblast
      rw [hflag]
      have hval := coxdb_zero_false k N hkN (k - 1) (by omega) b
      rw [show k - 1 + 1 = k from by omega] at hval
      rw [hval, if_neg (by omega : ¬ b + k = k), zero_smul]

theorem bspline_node_last (N k num : ℕ) (hk1 : 1 ≤ k) (hkN : k ≤ N) (hN : 2 ≤ N)
    (hnum : 2 ≤ num) (cp : ℕ → Vec3) : bsplineCurveNode N k num cp (num - 1) = cp (N - 1) := by
  unfold bsplineCurveNode
  have hKL : bsplineKnotLast k N = ((N + 1 - k : ℕ) : ℚ) := by
    unfold bsplineKnotLast
    exact knotf_of_ge k N _ (by omega)
  rw [hKL, linspace_last _ _ _ hnum]
  rw [Finset.sum_eq_single_of_mem (N - 1) (Finset.mem_range.mpr (by omega))]
  · have hflag : decide (N - 1 = N - 1) = true := decide_eq_true rfl
    rw [hflag]
    have hval := coxdb_L_last k N hk1 hkN (k - 1)
    rw [show k - 1 + 1 = k from by omega] at hval
    rw [hval, one_smul]
  · intro b hb hbne
    have hflag : decide (b = N - 1) = false := decide_eq_false hbne
    rw [hflag, coxdb_L_false k N k b, zero_smul]

/-- C3: for every valid control-point grid and sample count `num ≥ 2`, the
first sampled node of a curve evaluation equals the first control point and
the last sampled node equals the last control point: for the Bézier curve at
`u = 0` and `u = 1`, for the Hermite curve exactly at the corner points `P0`
(`t = 0`) and `P1` (`t = 1`), and for the B-spline curve (order `1 ≤ k ≤ N`)
at the two ends of its knot domain. Stated over exact arithmetic, which is
the "within floating tolerance" ideal the claim refers to. -/
theorem C3_endpoint_interpolation :
    (∀ (N num : ℕ) (cp : ℕ → Vec3), 2 ≤ N → 2 ≤ num →
      bezierCurveNode N num cp 0 = cp 0 ∧ bezierCurveNode N num cp (num - 1) = cp (N - 1)) ∧
    (∀ (p : Fin 3 → Fin 4 → ℚ) (num : ℕ) (c : Fin 3), 2 ≤ num →
      hermiteCurveNode p num 0 c = p c 0 ∧ hermiteCurveNode p num (num - 1) c = p c 1) ∧
    (∀ (N k num : ℕ) (cp : ℕ → Vec3), 2 ≤ N → 1 ≤ k → k ≤ N → 2 ≤ num →
      bsplineCurveNode N k num cp 0 = cp 0 ∧
        bsplineCurveNode N k num cp (num - 1) = cp (N - 1)) := by
  refine ⟨?_, ?_, ?_⟩
  · intro N num cp _ hnum
    exact ⟨bezier_node_first N num cp, bezier_node_last N num cp hnum⟩
  · intro p num c hnum
    exact ⟨hermite_node_first p num c, hermite_node_last p num c hnum⟩
  · intro N k num cp hN hk1 hkN hnum
    exact ⟨bspline_node_first N k num hk1 hkN hN cp,
      bspline_node_last N k num hk1 hkN hN hnum cp⟩

/-- Witness for C3 at concrete inputs (two control points, three samples,
B-spline order 2). -/
theorem C3_endpoint_interpolation_witness :
    (2 ≤ 2 ∧ 1 ≤ 2 ∧ 2 ≤ 3) ∧
    (bezierCurveNode 2 3 cpW 0 = cpW 0 ∧ bezierCurveNode 2 3 cpW (3 - 1) = cpW (2 - 1)) ∧
    (hermiteCurveNode hermW 3 0 0 = hermW 0 0 ∧
      hermiteCurveNode hermW 3 (3 - 1) 0 = hermW 0 1) ∧
    (bsplineCurveNode 2 2 3 cpW 0 = cpW 0 ∧ bsplineCurveNode 2 2 3 cpW (3 - 1) = cpW (2 - 1)) :=
  ⟨⟨by norm_num, by norm_num, by norm_num⟩,
    C3_endpoint_interpolation.1 2 3 cpW (by norm_num) (by norm_num),
    C3_endpoint_interpolation.2.1 hermW 3 0 (by norm_num),
    C3_endpoint_interpolation.2.2 2 2 3 cpW (by norm_num) (by norm_num) (by norm_num)
      (by norm_num)⟩
